import Mathlib

/-!
Shallow embedding of the ray-trace renderer (src/lib.rs, src/ray.rs,
src/surface.rs, src/material.rs, src/texture.rs, src/light.rs).

The Rust code computes with `f32`; the embedding idealises machine floats as
exact rationals.  The analytic primitives that `f32` provides (`sqrt`, `atan`,
`atan2`, `powf`, the constant `PI`) are irrational-valued, so they are passed
as an explicit record of functions `Ops`; every theorem below is proved for an
arbitrary such record, and concrete witnesses instantiate it with small
rational tables.  Branch structure, accumulation order and data flow follow
the Rust source line by line.
-/

namespace RayTrace

/-- The analytic primitives of `f32` used by the renderer, supplied abstractly:
`sqrt`, `atan`, `atan2`, `powf` and the constant `std::f32::consts::PI`. -/
structure Ops where
  sqrt : ℚ → ℚ
  atan : ℚ → ℚ
  atan2 : ℚ → ℚ → ℚ
  powf : ℚ → ℚ → ℚ
  pi : ℚ

/-- `nalgebra::Vector3<f32>` (`pub type Vec3` in src/lib.rs). -/
structure Vec3 where
  x : ℚ
  y : ℚ
  z : ℚ
deriving DecidableEq

instance : Add Vec3 := ⟨fun a b => ⟨a.x + b.x, a.y + b.y, a.z + b.z⟩⟩

instance : Sub Vec3 := ⟨fun a b => ⟨a.x - b.x, a.y - b.y, a.z - b.z⟩⟩

instance : Zero Vec3 := ⟨⟨0, 0, 0⟩⟩

instance : HMul Vec3 ℚ Vec3 := ⟨fun v s => ⟨v.x * s, v.y * s, v.z * s⟩⟩

instance : HDiv Vec3 ℚ Vec3 := ⟨fun v s => ⟨v.x / s, v.y / s, v.z / s⟩⟩

@[simp] theorem Vec3.add_def (a b : Vec3) :
    a + b = ⟨a.x + b.x, a.y + b.y, a.z + b.z⟩ := rfl

@[simp] theorem Vec3.sub_def (a b : Vec3) :
    a - b = ⟨a.x - b.x, a.y - b.y, a.z - b.z⟩ := rfl

@[simp] theorem Vec3.zero_def : (0 : Vec3) = ⟨0, 0, 0⟩ := rfl

@[simp] theorem Vec3.smul_def (v : Vec3) (s : ℚ) :
    v * s = ⟨v.x * s, v.y * s, v.z * s⟩ := rfl

@[simp] theorem Vec3.sdiv_def (v : Vec3) (s : ℚ) :
    v / s = ⟨v.x / s, v.y / s, v.z / s⟩ := rfl

theorem Vec3.add_zero (a : Vec3) : a + 0 = a := by
  cases a; simp

theorem Vec3.zero_add (a : Vec3) : 0 + a = a := by
  cases a; simp

theorem Vec3.add_assoc (a b c : Vec3) : a + b + c = a + (b + c) := by
  cases a; cases b; cases c
  simp [Vec3.mk.injEq]
  refine ⟨by ring, by ring, by ring⟩

/-- `nalgebra` dot product. -/
def dot (a b : Vec3) : ℚ := a.x * b.x + a.y * b.y + a.z * b.z

/-- `nalgebra` cross product. -/
def cross (a b : Vec3) : Vec3 :=
  ⟨a.y * b.z - a.z * b.y, a.z * b.x - a.x * b.z, a.x * b.y - a.y * b.x⟩

/-- `component_mul`: elementwise product. -/
def componentMul (a b : Vec3) : Vec3 := ⟨a.x * b.x, a.y * b.y, a.z * b.z⟩

/-- `sqnorm`: squared Euclidean norm. -/
def sqnorm (v : Vec3) : ℚ := dot v v

/-- `norm`: Euclidean norm, via the supplied `sqrt`. -/
def norm (ops : Ops) (v : Vec3) : ℚ := ops.sqrt (sqnorm v)

/-- `normalize`: division of a vector by its norm. -/
def normalize (ops : Ops) (v : Vec3) : Vec3 := v / norm ops v

/-- src/ray.rs: `Ray { origin, dir }`. -/
structure Ray where
  origin : Vec3
  dir : Vec3

/-- src/ray.rs: `Ray::new` normalizes the direction. -/
def Ray.new (ops : Ops) (origin dir : Vec3) : Ray :=
  ⟨origin, normalize ops dir⟩

/-- src/ray.rs: `Intersection { pos, normal, dist, u, v }`. -/
structure Intersection where
  pos : Vec3
  normal : Vec3
  dist : ℚ
  u : ℚ
  v : ℚ
deriving DecidableEq

/-- src/texture.rs: trait object `Box<dyn Texture>`, a color sampler. -/
structure Texture where
  color : ℚ → ℚ → Vec3

/-- Rust `f32` truncation toward zero (the `trunc` underlying `%` on floats). -/
def ratTrunc (q : ℚ) : ℤ := if 0 ≤ q then ⌊q⌋ else ⌈q⌉

/-- Rust `%` on floats: remainder with the sign of the dividend,
`a % b = a - b * trunc(a / b)`. -/
def rustRem (a b : ℚ) : ℚ := a - b * (ratTrunc (a / b) : ℚ)

/-- src/texture.rs, `CheckerboardTexture::color`: the per-coordinate fold of
lines 25-37 — `s = w % dim`, then `s -= dim/2` if `s > 0` else `s += dim/2`. -/
def foldCoord (dim w : ℚ) : ℚ :=
  let s := rustRem w dim
  if 0 < s then s - dim / 2 else s + dim / 2

/-- src/texture.rs: `CheckerboardTexture { dim }`. -/
structure CheckerboardTexture where
  dim : ℚ

/-- src/texture.rs lines 22-47: `CheckerboardTexture::color`.  Returns
`color1 = (0,0,0)` when `s > 0 && t < 0 || s < 0 && t > 0` on the folded
coordinates, else `color2 = (255,255,255)`. -/
def CheckerboardTexture.color (cb : CheckerboardTexture) (u v : ℚ) : Vec3 :=
  if (0 < foldCoord cb.dim u ∧ foldCoord cb.dim v < 0) ∨
      (foldCoord cb.dim u < 0 ∧ 0 < foldCoord cb.dim v) then
    ⟨0, 0, 0⟩
  else
    ⟨255, 255, 255⟩

/-- src/texture.rs: `ImageTexture`, an RGB image: width, height and the pixel
grid of `RgbImage` (sampled through `get_pixel`). -/
structure ImageTexture where
  width : ℕ
  height : ℕ
  pix : ℕ → ℕ → Vec3

/-- Rust `as u32` conversion from `f32`: saturating — negative values go to 0,
values at or above `u32::MAX` go to `u32::MAX`, otherwise truncation. -/
def f32toU32 (q : ℚ) : ℕ :=
  if q ≤ 0 then 0 else min (2 ^ 32 - 1) ⌊q⌋.toNat

/-- src/texture.rs lines 71-78: `ImageTexture::color`.
`u = (u % 1.) * (width as f32 - 1.)`, likewise `v`, then
`get_pixel(u as u32, v as u32)`. -/
def ImageTexture.color (img : ImageTexture) (u v : ℚ) : Vec3 :=
  let u' := rustRem u 1 * ((img.width : ℚ) - 1)
  let v' := rustRem v 1 * ((img.height : ℚ) - 1)
  img.pix (f32toU32 u') (f32toU32 v')

/-- The sampling rule in the words of the spec (§4.5): wrap `u, v` into
`[0,1)` via modulo 1 (mathematical fractional part), scale to
`(width-1, height-1)` pixel space, take the pixel at the truncated
coordinates.  Stated only to be compared with `ImageTexture.color`. -/
def ImageTexture.colorSpec (img : ImageTexture) (u v : ℚ) : Vec3 :=
  let u' := (u - (⌊u⌋ : ℚ)) * ((img.width : ℚ) - 1)
  let v' := (v - (⌊v⌋ : ℚ)) * ((img.height : ℚ) - 1)
  img.pix ⌊u'⌋.toNat ⌊v'⌋.toNat

/-- src/material.rs: `NormalMap`.  The Rust struct stores fractal-noise
parameters (seed, octaves, wavelength, persistence, lacunarity) and builds an
`Fbm` sampler from the external `noise` crate; the configured sampler's
`get([x,y,z])` is modelled abstractly as the function `noiseGet`. -/
structure NormalMap where
  noiseGet : Vec3 → ℚ

/-- src/material.rs lines 115-130: `NormalMap::map`.
`val = (noise + 1) / 2`, clamped at 0 from below; result
`normalize(normal + (val,val,val))`. -/
def NormalMap.map (ops : Ops) (nm : NormalMap) (normal hitPos : Vec3) : Vec3 :=
  let val := (nm.noiseGet hitPos + 1) / 2
  let val := if val < 0 then 0 else val
  normalize ops (normal + ⟨val, val, val⟩)

/-- src/material.rs: `DisplacementMap`, modelled like `NormalMap`. -/
structure DisplacementMap where
  noiseGet : Vec3 → ℚ

/-- src/material.rs lines 156-171: `DisplacementMap::map`.
`val = noise + 1` (not halved), clamped at 0; result `pos + (val,val,val)`. -/
def DisplacementMap.map (dm : DisplacementMap) (hitPos : Vec3) : Vec3 :=
  let val := dm.noiseGet hitPos + 1
  let val := if val < 0 then 0 else val
  hitPos + ⟨val, val, val⟩

/-- src/material.rs: `Material`.  The field `color` is the base color; the
Rust method `Material::color` is modelled below as `Material.shade` (Lean
does not allow a method named after a field). -/
structure Material where
  color : Vec3
  diffuse_coeff : ℚ
  specular_coeff : ℚ
  glossiness : ℚ
  reflectivity : ℚ
  texture : Option Texture
  normal_map : Option NormalMap
  displacement_map : Option DisplacementMap

/-- src/material.rs: `Material::raw_color`. -/
def Material.raw_color (m : Material) : Vec3 := m.color

/-- src/material.rs lines 53-67: `Material::color(shadow_ray, camera_ray, hit)`
(diffuse + specular local shading). -/
def Material.shade (ops : Ops) (m : Material) (shadow_ray camera_ray : Ray)
    (hit : Intersection) : Vec3 :=
  let f := max 0 (dot hit.normal shadow_ray.dir)
  let diffuse_color := componentMul (m.color * f * m.diffuse_coeff)
    (match m.texture with
     | some t => t.color hit.u hit.v / (255 : ℚ)
     | none => ⟨1, 1, 1⟩)
  let half_vec := normalize ops ((shadow_ray.dir - camera_ray.dir) / (2 : ℚ))
  let f2 := ops.powf (max 0 (dot half_vec hit.normal)) m.glossiness
  let specular_color := (⟨255, 255, 255⟩ : Vec3) * f2 * m.specular_coeff
  diffuse_color + specular_color

/-- src/material.rs lines 77-82: `Material::apply_normal_map`. -/
def Material.apply_normal_map (ops : Ops) (m : Material)
    (normal hitPos : Vec3) : Vec3 :=
  match m.normal_map with
  | some map => map.map ops normal hitPos
  | none => normal

/-- src/material.rs lines 84-89: `Material::apply_displacement_map`. -/
def Material.apply_displacement_map (m : Material) (hitPos : Vec3) : Vec3 :=
  match m.displacement_map with
  | some map => map.map hitPos
  | none => hitPos

/-- src/light.rs: `PointLight`. -/
structure PointLight where
  pos : Vec3
  color : Vec3
  intensity : ℚ

/-- src/surface.rs: `Sphere { pos, radius, material }`. -/
structure Sphere where
  pos : Vec3
  radius : ℚ
  material : Material

/-- src/surface.rs: `Plane { point, normal, material }`. -/
structure Plane where
  point : Vec3
  normal : Vec3
  material : Material

/-- src/surface.rs lines 81-83: `Plane::new` stores its arguments verbatim. -/
def Plane.new (point normal : Vec3) (material : Material) : Plane :=
  ⟨point, normal, material⟩

/-- src/surface.rs line 37: `b = 2. * dot(&ray.dir, &center_offset)` with
`center_offset = ray.origin - self.pos`. -/
def sphereB (s : Sphere) (ray : Ray) : ℚ :=
  2 * dot ray.dir (ray.origin - s.pos)

/-- src/surface.rs line 38: `c = center_offset.sqnorm() - radius * radius`. -/
def sphereC (s : Sphere) (ray : Ray) : ℚ :=
  sqnorm (ray.origin - s.pos) - s.radius * s.radius

/-- src/surface.rs line 40: `discriminant = b * b - 4. * c`. -/
def sphereDisc (s : Sphere) (ray : Ray) : ℚ :=
  sphereB s ray * sphereB s ray - 4 * sphereC s ray

/-- src/surface.rs line 44: `d1 = 0.5 * (-b + disc_sqrt)` (the larger root). -/
def sphereD1 (ops : Ops) (s : Sphere) (ray : Ray) : ℚ :=
  (1 / 2) * (-(sphereB s ray) + ops.sqrt (sphereDisc s ray))

/-- src/surface.rs line 45: `d2 = 0.5 * (-b - disc_sqrt)` (the smaller root). -/
def sphereD2 (ops : Ops) (s : Sphere) (ray : Ray) : ℚ :=
  (1 / 2) * (-(sphereB s ray) - ops.sqrt (sphereDisc s ray))

/-- src/surface.rs lines 58-67: the `Intersection` built for a chosen ray
parameter `d`: `pos = origin + dir * d`, `normal = normalize(pos - center)`,
`center_vec = normalize(center - pos)`,
`u = 0.5 + atan2(center_vec.z, center_vec.x) / (2 PI)`,
`v = 0.5 - atan(center_vec.y) / PI`. -/
def sphereHit (ops : Ops) (s : Sphere) (ray : Ray) (d : ℚ) : Intersection :=
  let pos := ray.origin + ray.dir * d
  let normal := normalize ops (pos - s.pos)
  let center_vec := normalize ops (s.pos - pos)
  let u := 1 / 2 + ops.atan2 center_vec.z center_vec.x / (2 * ops.pi)
  let v := 1 / 2 - ops.atan center_vec.y / ops.pi
  ⟨pos, normal, d, u, v⟩

/-- src/surface.rs lines 35-71: `Sphere::intersect`.  If the discriminant is
nonnegative, prefer `d2` when positive, else `d1` when positive, else no hit;
if the discriminant is negative, no hit. -/
def Sphere.intersect (ops : Ops) (s : Sphere) (ray : Ray) :
    Option Intersection :=
  if 0 ≤ sphereDisc s ray then
    if 0 < sphereD2 ops s ray then
      some (sphereHit ops s ray (sphereD2 ops s ray))
    else if 0 < sphereD1 ops s ray then
      some (sphereHit ops s ray (sphereD1 ops s ray))
    else
      none
  else
    none

/-- src/surface.rs lines 95-118: `Plane::intersect`.
`denom = dot(ray.dir, normal)`; `denom == 0` means no hit;
`d = dot(normal, point - origin) / denom`, hit only when `d > 0`;
`u_axis = (n.y, n.z, -n.x)`, `v_axis = cross(u_axis, n)`,
`u = dot(pos, u_axis)`, `v = dot(pos, v_axis)`; the returned normal is the
stored plane normal. -/
def Plane.intersect (p : Plane) (ray : Ray) : Option Intersection :=
  let denom := dot ray.dir p.normal
  if denom = 0 then
    none
  else
    let d := dot p.normal (p.point - ray.origin) / denom
    if 0 < d then
      let pos := ray.origin + ray.dir * d
      let u_axis : Vec3 := ⟨p.normal.y, p.normal.z, -p.normal.x⟩
      let v_axis := cross u_axis p.normal
      some ⟨pos, p.normal, d, dot pos u_axis, dot pos v_axis⟩
    else
      none

/-- The spec-modelled, map-applying variant of the `Intersection` built by
`Sphere::intersect` (spec §4.3): same geometry as `sphereHit`, then the normal
is replaced via `Material::apply_normal_map` at the (un-displaced) hit
position, the position is perturbed via `Material::apply_displacement_map`,
and `u`, `v`, `dist` keep their pre-displacement values. -/
def sphereHitMapped (ops : Ops) (s : Sphere) (ray : Ray) (d : ℚ) :
    Intersection :=
  let pos := ray.origin + ray.dir * d
  let normal := normalize ops (pos - s.pos)
  let center_vec := normalize ops (s.pos - pos)
  let u := 1 / 2 + ops.atan2 center_vec.z center_vec.x / (2 * ops.pi)
  let v := 1 / 2 - ops.atan center_vec.y / ops.pi
  let normal := s.material.apply_normal_map ops normal pos
  let pos := s.material.apply_displacement_map pos
  ⟨pos, normal, d, u, v⟩

/-- Modelled from the spec: the `src/surface.rs` in this snapshot predates
`src/material.rs` (it carries its own map-free `Material` type and never calls
`apply_normal_map` or `apply_displacement_map`), so the map-applying
`Sphere::intersect` described by spec §4.3 is missing from `src/`.  It is
modelled here from the spec's words, on top of `Material.apply_normal_map` and
`Material.apply_displacement_map`, which are translated from
`src/material.rs`.  Root selection is identical to `Sphere.intersect`. -/
def Sphere.intersectWithMaps (ops : Ops) (s : Sphere) (ray : Ray) :
    Option Intersection :=
  if 0 ≤ sphereDisc s ray then
    if 0 < sphereD2 ops s ray then
      some (sphereHitMapped ops s ray (sphereD2 ops s ray))
    else if 0 < sphereD1 ops s ray then
      some (sphereHitMapped ops s ray (sphereD1 ops s ray))
    else
      none
  else
    none

/-- src/surface.rs: the trait object `Box<dyn Surface>` seen by the scene —
an intersection test plus a material (the debug-only `name` is omitted). -/
structure Surface where
  intersect : Ray → Option Intersection
  material : Material

/-- A `Sphere` as a `Box<dyn Surface>`. -/
def Sphere.toSurface (ops : Ops) (s : Sphere) : Surface :=
  ⟨Sphere.intersect ops s, s.material⟩

/-- A `Plane` as a `Box<dyn Surface>`. -/
def Plane.toSurface (p : Plane) : Surface :=
  ⟨Plane.intersect p, p.material⟩

/-- src/lib.rs: `Camera` (its ray-generation methods are not needed by any
claim below and are omitted). -/
structure Camera where
  pos : Vec3
  dir : Vec3
  up : Vec3
  right : Vec3

/-- src/lib.rs: `Scene`. -/
structure Scene where
  objects : List Surface
  lights : List PointLight
  ambient_coeff : ℚ
  ambient_color : Vec3
  camera : Camera

/-- src/lib.rs lines 78-86: one step of the `Scene::intersect` loop — a newly
found hit replaces the current best only when its distance is strictly
smaller. -/
def sceneStep (ray : Ray) (acc : Option (Surface × Intersection))
    (obj : Surface) : Option (Surface × Intersection) :=
  match obj.intersect ray with
  | none => acc
  | some hit =>
    match acc with
    | none => some (obj, hit)
    | some pr => if hit.dist < pr.2.dist then some (obj, hit) else acc

/-- src/lib.rs lines 76-88: `Scene::intersect` — linear scan of all surfaces,
keeping the nearest hit. -/
def Scene.intersect (scene : Scene) (ray : Ray) :
    Option (Surface × Intersection) :=
  scene.objects.foldl (sceneStep ray) none

/-- `std::f32::EPSILON` = 2 ^ (-23). -/
def EPSILON : ℚ := 1 / 8388608

/-- src/lib.rs line 120 (and 153): the shading origin offset along the normal
by `f32::EPSILON.sqrt()`. -/
def shadowOrigin (ops : Ops) (hit : Intersection) : Vec3 :=
  hit.pos + hit.normal * ops.sqrt EPSILON

/-- src/lib.rs line 122: the distance from the offset hit point to the
light, `dist = dir.norm()` with `dir = light.pos - pos`. -/
def lightDist (ops : Ops) (hit : Intersection) (light : PointLight) : ℚ :=
  norm ops (light.pos - shadowOrigin ops hit)

/-- src/lib.rs line 123: the shadow ray from the offset hit point toward the
light. -/
def shadowRayFor (ops : Ops) (hit : Intersection) (light : PointLight) : Ray :=
  Ray.new ops (shadowOrigin ops hit) (light.pos - shadowOrigin ops hit)

/-- src/lib.rs lines 127-128 and 132-133: the diffuse/specular contribution of
one visible light,
`material.color(shadow_ray, ray, hit).component_mul(light.color/255 * intensity)`. -/
def lightContrib (ops : Ops) (m : Material) (ray : Ray) (hit : Intersection)
    (light : PointLight) : Vec3 :=
  componentMul (m.shade ops (shadowRayFor ops hit light) ray hit)
    ((light.color / (255 : ℚ)) * light.intensity)

/-- src/lib.rs line 116: the ambient color term
`raw_color().component_mul((ambient_color / 255) * ambient_coeff)`. -/
def ambientTerm (scene : Scene) (m : Material) : Vec3 :=
  componentMul m.raw_color ((scene.ambient_color / (255 : ℚ)) * scene.ambient_coeff)

/-- Whether a light is unoccluded from the hit point, exactly as tested by
src/lib.rs lines 124-134: either the shadow ray hits nothing, or the nearest
occluder is farther than the light (`shadow_hit.dist > dist`). -/
def lightVisibleB (ops : Ops) (scene : Scene) (hit : Intersection)
    (light : PointLight) : Bool :=
  match Scene.intersect scene (shadowRayFor ops hit light) with
  | none => true
  | some pr => decide (lightDist ops hit light < pr.2.dist)

/-- src/lib.rs lines 113-135: the non-recursive part of `trace_ray` at a hit —
ambient color, then the shadow-ray loop over the scene's lights, accumulating
each visible light's diffuse/specular contribution. -/
def shadePoint (ops : Ops) (scene : Scene) (ray : Ray) (m : Material)
    (hit : Intersection) : Vec3 :=
  scene.lights.foldl
    (fun color light =>
      match Scene.intersect scene (shadowRayFor ops hit light) with
      | some pr =>
        if lightDist ops hit light < pr.2.dist then
          color + lightContrib ops m ray hit light
        else
          color
      | none => color + lightContrib ops m ray hit light)
    (ambientTerm scene m)

/-- src/lib.rs lines 152-156: `reflected_ray` — origin offset along the
normal, direction `ray.dir - hit.normal * 2 * dot(ray.dir, hit.normal)`. -/
def reflectedRay (ops : Ops) (ray : Ray) (hit : Intersection) : Ray :=
  Ray.new ops (shadowOrigin ops hit)
    (ray.dir - hit.normal * (2 : ℚ) * dot ray.dir hit.normal)

/-- src/lib.rs lines 110-150: `trace_ray`.  Background `(0,0,0)` on a miss;
otherwise local shading, an early return at the depth limit, then the
recursive reflection contribution when `reflectivity > 0`.  The recursion
decreases `maxDepth - depth`. -/
def traceRay (ops : Ops) (scene : Scene) (ray : Ray) (depth maxDepth : ℕ) :
    Vec3 :=
  match Scene.intersect scene ray with
  | none => ⟨0, 0, 0⟩
  | some (obj, hit) =>
    let color := shadePoint ops scene ray obj.material hit
    if _hd : maxDepth ≤ depth then
      color
    else if 0 < obj.material.reflectivity then
      color + traceRay ops scene (reflectedRay ops ray hit) (depth + 1)
        maxDepth * obj.material.reflectivity
    else
      color
termination_by maxDepth - depth
decreasing_by omega

/-- The value of `trace_ray` with the reflection branch cut off: ambient plus
direct lighting only.  `trace_ray` coincides with this at the depth limit. -/
def localShade (ops : Ops) (scene : Scene) (ray : Ray) : Vec3 :=
  match Scene.intersect scene ray with
  | none => ⟨0, 0, 0⟩
  | some (obj, hit) => shadePoint ops scene ray obj.material hit

/-- Sum of a list of vectors (used to state what the shadow-ray loop
accumulates). -/
def vsum : List Vec3 → Vec3
  | [] => 0
  | v :: vs => v + vsum vs

/-! Concrete fixtures used to evaluate the theorems on explicit inputs.
`wOps.sqrt` is a small table that is a genuine square root on the arguments
that actually occur (`4`, `1`, `EPSILON`-offsets excluded by construction). -/

def wOps : Ops :=
  Ops.mk (fun q => if q = 4 then 2 else if q = 1 then 1 else 0)
    (fun _ => 0) (fun _ _ => 0) (fun _ _ => 0) 0

def wMat : Material := Material.mk ⟨0, 0, 255⟩ 1 0 1 0 none none none

def wSphere : Sphere := Sphere.mk ⟨0, 0, 0⟩ 1 wMat

def wSphereB : Sphere := Sphere.mk ⟨0, 0, 2⟩ 1 wMat

def wRay : Ray := Ray.new wOps ⟨0, 0, -4⟩ ⟨0, 0, 1⟩

def wRayX : Ray := Ray.new wOps ⟨0, 0, 0⟩ ⟨1, 0, 0⟩

def wHit : Intersection := Intersection.mk ⟨0, 0, -1⟩ ⟨0, 0, -1⟩ 3 (1/2) (1/2)

def wHitB : Intersection := Intersection.mk ⟨0, 0, 1⟩ ⟨0, 0, -1⟩ 5 (1/2) (1/2)

def wHitP : Intersection := Intersection.mk ⟨0, 0, 5⟩ ⟨0, 0, 2⟩ 9 0 0

def wSurf : Surface := Sphere.toSurface wOps wSphere

def wSurfB : Surface := Sphere.toSurface wOps wSphereB

def wCam : Camera := Camera.mk ⟨0, 0, -4⟩ ⟨0, 0, 1⟩ ⟨0, 1, 0⟩ ⟨1, 0, 0⟩

def wLight : PointLight := PointLight.mk ⟨5, 5, -5⟩ ⟨255, 255, 255⟩ 2

def wScene : Scene := Scene.mk [wSurf] [] (1/10) ⟨255, 255, 255⟩ wCam

def wScene1 : Scene := Scene.mk [wSurf] [wLight] (1/10) ⟨255, 255, 255⟩ wCam

def wScene5 : Scene := Scene.mk [wSurf, wSurfB] [] (1/10) ⟨255, 255, 255⟩ wCam

def wPlane : Plane := Plane.new ⟨0, 0, 5⟩ ⟨0, 0, 2⟩ wMat

def wPlanePar : Plane := Plane.new ⟨0, 1, 0⟩ ⟨0, 1, 0⟩ wMat

def wImg : ImageTexture :=
  ImageTexture.mk 3 1 (fun a b => ⟨(a : ℚ), (b : ℚ), 0⟩)

theorem sphereHit_dist (ops : Ops) (s : Sphere) (ray : Ray) (d : ℚ) :
    (sphereHit ops s ray d).dist = d := rfl

/-- C2: `Sphere::intersect` solves the quadratic `t^2 + b t + c = 0` with
`b = 2 dot(dir, origin - center)` and `c = sqnorm(origin - center) - r^2`:
it returns no hit when the discriminant `b^2 - 4c` is negative, the hit at
distance `d2 = (-b - sqrt disc)/2` when `d2 > 0`, else the hit at
`d1 = (-b + sqrt disc)/2` when `d1 > 0`, and no hit when both roots are
nonpositive; whenever `sqrt` squares back to the discriminant, `d1` and `d2`
are genuine roots of the quadratic. -/
theorem sphere_intersect_root_selection (ops : Ops) (s : Sphere) (ray : Ray) :
    (sphereDisc s ray < 0 → Sphere.intersect ops s ray = none) ∧
    (0 ≤ sphereDisc s ray → 0 < sphereD2 ops s ray →
      Sphere.intersect ops s ray =
        some (sphereHit ops s ray (sphereD2 ops s ray)) ∧
      (sphereHit ops s ray (sphereD2 ops s ray)).dist = sphereD2 ops s ray) ∧
    (0 ≤ sphereDisc s ray → sphereD2 ops s ray ≤ 0 → 0 < sphereD1 ops s ray →
      Sphere.intersect ops s ray =
        some (sphereHit ops s ray (sphereD1 ops s ray)) ∧
      (sphereHit ops s ray (sphereD1 ops s ray)).dist = sphereD1 ops s ray) ∧
    (sphereD2 ops s ray ≤ 0 → sphereD1 ops s ray ≤ 0 →
      Sphere.intersect ops s ray = none) ∧
    (ops.sqrt (sphereDisc s ray) * ops.sqrt (sphereDisc s ray) =
        sphereDisc s ray →
      sphereD2 ops s ray * sphereD2 ops s ray +
          sphereB s ray * sphereD2 ops s ray + sphereC s ray = 0 ∧
      sphereD1 ops s ray * sphereD1 ops s ray +
          sphereB s ray * sphereD1 ops s ray + sphereC s ray = 0) := by
  refine ⟨?_, ?_, ?_, ?_, ?_⟩
  · intro hneg
    unfold Sphere.intersect
    rw [if_neg (by linarith)]
  · intro hdisc hd2
    unfold Sphere.intersect
    rw [if_pos hdisc, if_pos hd2]
    exact ⟨rfl, rfl⟩
  · intro hdisc hd2 hd1
    unfold Sphere.intersect
    rw [if_pos hdisc, if_neg (by linarith), if_pos hd1]
    exact ⟨rfl, rfl⟩
  · intro hd2 hd1
    unfold Sphere.intersect
    split_ifs with h1 h2 h3
    · linarith
    · linarith
    · rfl
    · rfl
  · intro hs
    constructor
    · unfold sphereD2
      unfold sphereDisc at hs ⊢
      linear_combination (1 / 4) * hs
    · unfold sphereD1
      unfold sphereDisc at hs ⊢
      linear_combination (1 / 4) * hs

/-- C7: every `Intersection` returned by `Sphere::intersect` or
`Plane::intersect` has `dist > 0`, and a ray exactly parallel to a plane
(`dot(dir, normal) == 0`) yields no intersection. -/
theorem intersection_dist_pos (ops : Ops) :
    (∀ (s : Sphere) (ray : Ray) (h : Intersection),
      Sphere.intersect ops s ray = some h → 0 < h.dist) ∧
    (∀ (p : Plane) (ray : Ray) (h : Intersection),
      Plane.intersect p ray = some h → 0 < h.dist) ∧
    (∀ (p : Plane) (ray : Ray), dot ray.dir p.normal = 0 →
      Plane.intersect p ray = none) := by
  refine ⟨?_, ?_, ?_⟩
  · intro s ray h heq
    unfold Sphere.intersect at heq
    split_ifs at heq with h1 h2 h3
    · cases heq
      exact h2
    · cases heq
      exact h3
  · intro p ray h heq
    unfold Plane.intersect at heq
    simp only [] at heq
    split_ifs at heq with h1 h2
    · cases heq
      exact h2
  · intro p ray hpar
    unfold Plane.intersect
    rw [if_pos hpar]

/-- C10: `Plane::new` stores its normal argument verbatim, and
`Plane::intersect` returns that stored normal unchanged — it is neither
re-normalized nor flipped on back-face hits. -/
theorem plane_normal_passthrough :
    (∀ (point n : Vec3) (m : Material), (Plane.new point n m).normal = n) ∧
    (∀ (p : Plane) (ray : Ray) (h : Intersection),
      Plane.intersect p ray = some h → h.normal = p.normal) := by
  refine ⟨fun _ _ _ => rfl, ?_⟩
  intro p ray h heq
  unfold Plane.intersect at heq
  simp only [] at heq
  split_ifs at heq
  cases heq
  rfl

theorem traceRay_unfold (ops : Ops) (scene : Scene) (ray : Ray)
    (depth maxDepth : ℕ) :
    traceRay ops scene ray depth maxDepth =
      match Scene.intersect scene ray with
      | none => ⟨0, 0, 0⟩
      | some (obj, hit) =>
        let color := shadePoint ops scene ray obj.material hit
        if maxDepth ≤ depth then
          color
        else if 0 < obj.material.reflectivity then
          color + traceRay ops scene (reflectedRay ops ray hit) (depth + 1)
            maxDepth * obj.material.reflectivity
        else
          color := by
  rw [traceRay]
  rcases Scene.intersect scene ray with _ | ⟨obj, hit⟩
  · rfl
  · by_cases h : maxDepth ≤ depth
    · simp only [dif_pos h, if_pos h]
    · simp only [dif_neg h, if_neg h]

theorem foldl_visible_sum (ops : Ops) (scene : Scene) (ray : Ray)
    (m : Material) (hit : Intersection) :
    ∀ (L : List PointLight) (init : Vec3),
      L.foldl
        (fun color light =>
          match Scene.intersect scene (shadowRayFor ops hit light) with
          | some pr =>
            if lightDist ops hit light < pr.2.dist then
              color + lightContrib ops m ray hit light
            else
              color
          | none => color + lightContrib ops m ray hit light)
        init =
      init + vsum (L.map fun light =>
        if lightVisibleB ops scene hit light then
          lightContrib ops m ray hit light
        else 0) := by
  intro L
  induction L with
  | nil =>
    intro init
    simp only [List.foldl_nil, List.map_nil, vsum, Vec3.add_zero]
  | cons l L ih =>
    intro init
    rw [List.foldl_cons, List.map_cons, ih]
    show _ = init + vsum (_ :: _)
    rw [vsum]
    rcases hi : Scene.intersect scene (shadowRayFor ops hit l) with _ | pr
    · simp only [lightVisibleB, hi, if_true]
      rw [Vec3.add_assoc]
    · simp only [lightVisibleB, hi, decide_eq_true_eq]
      by_cases hlt : lightDist ops hit l < pr.2.dist
      · rw [if_pos hlt, if_pos hlt, Vec3.add_assoc]
      · rw [if_neg hlt, if_neg hlt, Vec3.zero_add]

theorem shadePoint_eq (ops : Ops) (scene : Scene) (ray : Ray) (m : Material)
    (hit : Intersection) :
    shadePoint ops scene ray m hit =
      ambientTerm scene m + vsum (scene.lights.map fun light =>
        if lightVisibleB ops scene hit light then
          lightContrib ops m ray hit light
        else 0) := by
  unfold shadePoint
  exact foldl_visible_sum ops scene ray m hit scene.lights (ambientTerm scene m)

/-- C6: with zero lights and a hit whose material has reflectivity 0,
`trace_ray` returns exactly the ambient term
`raw_color ⊙ (ambient_color/255 * ambient_coeff)`; and on a miss it returns
the background color `(0,0,0)`. -/
theorem trace_ambient_and_background :
    (∀ (ops : Ops) (scene : Scene) (ray : Ray) (depth maxDepth : ℕ)
      (obj : Surface) (hit : Intersection),
      scene.lights = [] →
      Scene.intersect scene ray = some (obj, hit) →
      obj.material.reflectivity = 0 →
      traceRay ops scene ray depth maxDepth =
        componentMul obj.material.raw_color
          ((scene.ambient_color / (255 : ℚ)) * scene.ambient_coeff)) ∧
    (∀ (ops : Ops) (scene : Scene) (ray : Ray) (depth maxDepth : ℕ),
      Scene.intersect scene ray = none →
      traceRay ops scene ray depth maxDepth = ⟨0, 0, 0⟩) := by
  constructor
  · intro ops scene ray depth maxDepth obj hit hlights hhit hrefl
    rw [traceRay_unfold, hhit]
    have hshade : shadePoint ops scene ray obj.material hit =
        ambientTerm scene obj.material := by
      unfold shadePoint
      rw [hlights, List.foldl_nil]
    dsimp only
    rw [hshade]
    by_cases hd : maxDepth ≤ depth
    · rw [if_pos hd]
      rfl
    · rw [if_neg hd, hrefl, if_neg (lt_irrefl 0)]
      rfl
  · intro ops scene ray depth maxDepth hmiss
    rw [traceRay_unfold, hmiss]

/-- C3: at `depth >= max_depth`, `trace_ray` returns the ambient plus direct
lighting color with no reflection contribution and makes no recursive call,
regardless of the material's reflectivity (`localShade` contains no recursion);
the recursion of `traceRay` is well-founded, decreasing on
`maxDepth - depth` (it is defined by that measure, so it terminates on every
input). -/
theorem trace_no_recursion_at_depth_limit (ops : Ops) (scene : Scene)
    (ray : Ray) (depth maxDepth : ℕ) (h : maxDepth ≤ depth) :
    traceRay ops scene ray depth maxDepth = localShade ops scene ray := by
  rw [traceRay_unfold]
  unfold localShade
  rcases hi : Scene.intersect scene ray with _ | ⟨obj, hit⟩
  · rfl
  · dsimp only
    rw [if_pos h]

/-- C1: at a hit, `trace_ray` is the ambient term plus, for each light in
order, the contribution
`m.color(shadow_ray, ray, h) ⊙ (light.color/255 * light.intensity)` counted
exactly when the light is visible, plus the reflection term; and a light is
visible exactly when the shadow ray from the offset hit point meets no
occluder, or the nearest occluder lies strictly beyond the distance to the
light — an occluder at or nearer than the light blocks it. -/
theorem trace_shadow_visibility (ops : Ops) (scene : Scene) (ray : Ray)
    (depth maxDepth : ℕ) (obj : Surface) (hit : Intersection)
    (hhit : Scene.intersect scene ray = some (obj, hit)) :
    (traceRay ops scene ray depth maxDepth =
      ambientTerm scene obj.material +
        vsum (scene.lights.map fun light =>
          if lightVisibleB ops scene hit light then
            lightContrib ops obj.material ray hit light
          else 0) +
        (if maxDepth ≤ depth then 0
         else if 0 < obj.material.reflectivity then
           traceRay ops scene (reflectedRay ops ray hit) (depth + 1) maxDepth *
             obj.material.reflectivity
         else 0)) ∧
    (∀ light, lightVisibleB ops scene hit light = true ↔
      Scene.intersect scene (shadowRayFor ops hit light) = none ∨
      ∃ o sh,
        Scene.intersect scene (shadowRayFor ops hit light) = some (o, sh) ∧
        lightDist ops hit light < sh.dist) := by
  constructor
  · rw [traceRay_unfold, hhit]
    dsimp only
    rw [shadePoint_eq]
    by_cases hd : maxDepth ≤ depth
    · rw [if_pos hd, if_pos hd, Vec3.add_zero]
    · rw [if_neg hd, if_neg hd]
      by_cases hr : 0 < obj.material.reflectivity
      · rw [if_pos hr, if_pos hr]
      · rw [if_neg hr, if_neg hr, Vec3.add_zero]
  · intro light
    unfold lightVisibleB
    rcases hi : Scene.intersect scene (shadowRayFor ops hit light) with _ | pr
    · simp
    · simp only [decide_eq_true_eq]
      constructor
      · intro hlt
        exact Or.inr ⟨pr.1, pr.2, rfl, hlt⟩
      · rintro (habs | ⟨o, sh, heq, hlt⟩)
        · cases habs
        · injection heq with h2
          rw [h2]
          exact hlt

theorem ratTrunc_of_nonneg (q : ℚ) (h : 0 ≤ q) : ratTrunc q = ⌊q⌋ := by
  unfold ratTrunc
  rw [if_pos h]

theorem ratTrunc_of_neg (q : ℚ) (h : q < 0) : ratTrunc q = ⌈q⌉ := by
  unfold ratTrunc
  rw [if_neg (not_le.mpr h)]

theorem rustRem_add_right_of_nonneg (dim u : ℚ) (hdim : 0 < dim)
    (hu : 0 ≤ u) : rustRem (u + dim) dim = rustRem u dim := by
  have hne : dim ≠ 0 := ne_of_gt hdim
  have hdiv : (u + dim) / dim = u / dim + 1 := by
    field_simp
  have hx : 0 ≤ u / dim := div_nonneg hu hdim.le
  unfold rustRem
  rw [hdiv, ratTrunc_of_nonneg _ (by linarith), ratTrunc_of_nonneg _ hx]
  rw [Int.floor_add_one]
  push_cast
  ring

theorem rustRem_add_right_of_le_neg (dim u : ℚ) (hdim : 0 < dim)
    (hu : u ≤ -dim) : rustRem (u + dim) dim = rustRem u dim := by
  have hne : dim ≠ 0 := ne_of_gt hdim
  have hdiv : (u + dim) / dim = u / dim + 1 := by
    field_simp
  have hx : u / dim ≤ -1 := by
    rw [div_le_iff₀ hdim]
    linarith
  have hx0 : u / dim < 0 := lt_of_le_of_lt hx (by norm_num)
  unfold rustRem
  rw [hdiv, ratTrunc_of_neg _ hx0]
  rcases lt_or_eq_of_le (by linarith : u / dim + 1 ≤ 0) with hlt | heq
  · rw [ratTrunc_of_neg _ hlt]
    have : ⌈u / dim + 1⌉ = ⌈u / dim⌉ + 1 := by
      exact_mod_cast Int.ceil_add_int (u / dim) 1
    rw [this]
    push_cast
    ring
  · rw [heq, ratTrunc_of_nonneg _ le_rfl]
    have hudim : u / dim = -1 := by linarith
    have h1 : ⌈u / dim⌉ = -1 := by
      rw [hudim]
      have hcast : ((-1 : ℤ) : ℚ) = (-1 : ℚ) := by norm_num
      rw [← hcast, Int.ceil_intCast]
    rw [Int.floor_zero, h1]
    push_cast
    have hu2 : u = -dim := by
      have := hudim
      field_simp at this
      linarith
    rw [hu2]
    ring

theorem rustRem_self_of_mid (dim u : ℚ) (hdim : 0 < dim)
    (hlo : -dim < u) (hhi : u < 0) : rustRem u dim = u := by
  have hx0 : u / dim < 0 := div_neg_of_neg_of_pos hhi hdim
  have hx1 : -1 < u / dim := by
    rw [neg_lt, ← neg_div, div_lt_one hdim]
    linarith
  unfold rustRem
  rw [ratTrunc_of_neg _ hx0]
  have hceil : ⌈u / dim⌉ = 0 := by
    rw [Int.ceil_eq_zero_iff]
    exact ⟨hx1, hx0.le⟩
  rw [hceil]
  push_cast
  ring

theorem rustRem_add_of_mid (dim u : ℚ) (hdim : 0 < dim)
    (hlo : -dim < u) (hhi : u < 0) : rustRem (u + dim) dim = u + dim := by
  have hne : dim ≠ 0 := ne_of_gt hdim
  have h0 : 0 < u + dim := by linarith
  have hx0 : 0 ≤ (u + dim) / dim := div_nonneg h0.le hdim.le
  have hx1 : (u + dim) / dim < 1 := by
    rw [div_lt_one hdim]
    linarith
  unfold rustRem
  rw [ratTrunc_of_nonneg _ hx0]
  have hfloor : ⌊(u + dim) / dim⌋ = 0 := by
    rw [Int.floor_eq_zero_iff]
    exact ⟨hx0, hx1⟩
  rw [hfloor]
  push_cast
  ring

theorem foldCoord_add_period (dim u : ℚ) (hdim : 0 < dim) :
    foldCoord dim (u + dim) = foldCoord dim u := by
  rcases le_or_lt 0 u with hu | hu
  · unfold foldCoord
    rw [rustRem_add_right_of_nonneg dim u hdim hu]
  · rcases le_or_lt u (-dim) with hub | hub
    · unfold foldCoord
      rw [rustRem_add_right_of_le_neg dim u hdim hub]
    · unfold foldCoord
      rw [rustRem_add_of_mid dim u hdim hub hu,
        rustRem_self_of_mid dim u hdim hub hu]
      rw [if_neg (by linarith : ¬ 0 < u), if_pos (by linarith : (0:ℚ) < u + dim)]
      ring

/-- C8: `CheckerboardTexture::color` is spatially periodic with period `dim`
in both axes (for positive `dim`), and it returns black `(0,0,0)` exactly when
one folded coordinate is strictly positive and the other strictly negative,
white `(255,255,255)` otherwise. -/
theorem checkerboard_periodic_blackness (cb : CheckerboardTexture) (u v : ℚ)
    (hdim : 0 < cb.dim) :
    cb.color (u + cb.dim) v = cb.color u v ∧
    cb.color u (v + cb.dim) = cb.color u v ∧
    (cb.color u v = ⟨0, 0, 0⟩ ↔
      (0 < foldCoord cb.dim u ∧ foldCoord cb.dim v < 0) ∨
      (foldCoord cb.dim u < 0 ∧ 0 < foldCoord cb.dim v)) := by
  refine ⟨?_, ?_, ?_⟩
  · unfold CheckerboardTexture.color
    rw [foldCoord_add_period cb.dim u hdim]
  · unfold CheckerboardTexture.color
    rw [foldCoord_add_period cb.dim v hdim]
  · unfold CheckerboardTexture.color
    split_ifs with hc
    · simp only [hc, iff_true]
    · simp only [hc, iff_false, Vec3.mk.injEq]
      norm_num

theorem rustRem_one_of_nonneg (u : ℚ) (h : 0 ≤ u) :
    rustRem u 1 = u - (⌊u⌋ : ℚ) := by
  unfold rustRem
  rw [div_one, ratTrunc_of_nonneg u h]
  ring

theorem f32toU32_eq_floor_toNat (q : ℚ)
    (h2 : ⌊q⌋ ≤ 2 ^ 32 - 1) : f32toU32 q = ⌊q⌋.toNat := by
  unfold f32toU32
  rcases le_or_lt q 0 with hq | hq
  · rw [if_pos hq]
    have hup : ⌊q⌋ ≤ 0 := by
      calc ⌊q⌋ ≤ ⌊(0 : ℚ)⌋ := Int.floor_le_floor hq
      _ = 0 := Int.floor_zero
    omega
  · rw [if_neg (not_le.mpr hq)]
    apply min_eq_right
    have := Int.floor_nonneg.mpr hq.le
    omega

/-- C9 counterexample: at `u = -1/2` the Rust `%` leaves a negative remainder
and the saturating `as u32` cast clamps the pixel column to 0, so
`ImageTexture::color` does not sample at the coordinate obtained by wrapping
`u` into `[0,1)` via modulo 1 as the claim states (on a 3-pixel-wide image the
claim picks column 1, the code picks column 0). -/
theorem image_color_not_wrapped_at_neg_half :
    ImageTexture.color wImg (-(1 / 2)) 0 ≠
      ImageTexture.colorSpec wImg (-(1 / 2)) 0 := by
  have hceil : ⌈(-(1 / 2) : ℚ)⌉ = 0 := by
    rw [Int.ceil_eq_zero_iff]
    constructor
    · norm_num
    · norm_num
  have hrem : rustRem (-(1 / 2) : ℚ) 1 = -(1 / 2) := by
    unfold rustRem
    rw [div_one, ratTrunc_of_neg _ (by norm_num), hceil]
    norm_num
  have hrem0 : rustRem (0 : ℚ) 1 = 0 := by
    unfold rustRem
    rw [div_one, ratTrunc_of_nonneg _ le_rfl, Int.floor_zero]
    norm_num
  have hcode : ImageTexture.color wImg (-(1 / 2)) 0 = ⟨0, 0, 0⟩ := by
    unfold ImageTexture.color wImg
    simp only []
    rw [hrem, hrem0]
    norm_num [f32toU32]
  have hspec : ImageTexture.colorSpec wImg (-(1 / 2)) 0 = ⟨1, 0, 0⟩ := by
    unfold ImageTexture.colorSpec wImg
    simp only []
    norm_num
  rw [hcode, hspec]
  intro hcontra
  injection hcontra with hx hy hz
  exact absurd hx (by norm_num)

/-- C9 amended: for nonnegative `u` and `v` (and `u32`-sized image
dimensions), `ImageTexture::color` wraps `u`, `v` into `[0,1)` via modulo 1,
scales to `(width-1, height-1)` pixel space, and returns the nearest-neighbor
(truncated) sample at that pixel; for negative non-integer coordinates the
Rust `%` yields a negative remainder and the saturating `f32 -> u32` cast
clamps the pixel index to 0 instead. -/
theorem image_color_wraps_for_nonneg (img : ImageTexture) (u v : ℚ)
    (hu : 0 ≤ u) (hv : 0 ≤ v) (hw : img.width ≤ 2 ^ 32)
    (hh : img.height ≤ 2 ^ 32) :
    ImageTexture.color img u v = ImageTexture.colorSpec img u v := by
  have key : ∀ (w : ℕ) (q : ℚ), 0 ≤ q → w ≤ 2 ^ 32 →
      f32toU32 ((q - (⌊q⌋ : ℚ)) * ((w : ℚ) - 1)) =
        ⌊(q - (⌊q⌋ : ℚ)) * ((w : ℚ) - 1)⌋.toNat := by
    intro w q hq hwle
    have hfr0 : 0 ≤ q - (⌊q⌋ : ℚ) := by
      have := Int.floor_le q
      linarith
    have hfr1 : q - (⌊q⌋ : ℚ) < 1 := by
      have := Int.lt_floor_add_one q
      linarith
    apply f32toU32_eq_floor_toNat
    rcases Nat.eq_zero_or_pos w with hw0 | hw1
    · rw [hw0]
      push_cast
      have : (q - (⌊q⌋ : ℚ)) * (0 - 1) ≤ 0 := by nlinarith
      have hf := Int.floor_le_floor this
      rw [Int.floor_zero] at hf
      omega
    · have hb : (q - (⌊q⌋ : ℚ)) * ((w : ℚ) - 1) ≤ (w : ℚ) - 1 := by
        have : (0 : ℚ) ≤ (w : ℚ) - 1 := by
          have : (1 : ℚ) ≤ (w : ℚ) := by exact_mod_cast hw1
          linarith
        nlinarith
      have hcast : ((w : ℚ) - 1) = (((w : ℤ) - 1 : ℤ) : ℚ) := by push_cast; ring
      have hf : ⌊(q - (⌊q⌋ : ℚ)) * ((w : ℚ) - 1)⌋ ≤ (w : ℤ) - 1 := by
        calc ⌊(q - (⌊q⌋ : ℚ)) * ((w : ℚ) - 1)⌋
            ≤ ⌊((w : ℚ) - 1)⌋ := Int.floor_le_floor hb
          _ = (w : ℤ) - 1 := by rw [hcast, Int.floor_intCast]
      have hwz : (w : ℤ) ≤ 2 ^ 32 := by exact_mod_cast hwle
      omega
  unfold ImageTexture.color ImageTexture.colorSpec
  simp only []
  rw [rustRem_one_of_nonneg u hu, rustRem_one_of_nonneg v hv,
    key img.width u hu hw, key img.height v hv hh]

theorem sceneStep_of_miss (ray : Ray) (acc : Option (Surface × Intersection))
    (o : Surface) (hio : o.intersect ray = none) : sceneStep ray acc o = acc := by
  unfold sceneStep
  rw [hio]

theorem sceneStep_of_hit_none (ray : Ray) (o : Surface) (hit : Intersection)
    (hio : o.intersect ray = some hit) :
    sceneStep ray none o = some (o, hit) := by
  unfold sceneStep
  rw [hio]

theorem sceneStep_of_hit_lt (ray : Ray) (o : Surface) (hit : Intersection)
    (pr : Surface × Intersection) (hio : o.intersect ray = some hit)
    (hlt : hit.dist < pr.2.dist) :
    sceneStep ray (some pr) o = some (o, hit) := by
  unfold sceneStep
  rw [hio]
  exact if_pos hlt

theorem sceneStep_of_hit_ge (ray : Ray) (o : Surface) (hit : Intersection)
    (pr : Surface × Intersection) (hio : o.intersect ray = some hit)
    (hge : ¬ hit.dist < pr.2.dist) :
    sceneStep ray (some pr) o = some pr := by
  unfold sceneStep
  rw [hio]
  exact if_neg hge

theorem sceneFold_spec (ray : Ray) :
    ∀ (objs : List Surface) (acc : Option (Surface × Intersection)),
      (objs.foldl (sceneStep ray) acc = none ↔
        acc = none ∧ ∀ o ∈ objs, o.intersect ray = none) ∧
      (∀ s h, objs.foldl (sceneStep ray) acc = some (s, h) →
        (acc = some (s, h) ∧
          ∀ o ∈ objs, ∀ h', o.intersect ray = some h' → ¬ h'.dist < h.dist) ∨
        (∃ pre post, objs = pre ++ s :: post ∧ s.intersect ray = some h ∧
          (∀ p hp, acc = some (p, hp) → h.dist < hp.dist) ∧
          (∀ o ∈ pre, ∀ h', o.intersect ray = some h' → h.dist < h'.dist) ∧
          (∀ o ∈ post, ∀ h', o.intersect ray = some h' →
            ¬ h'.dist < h.dist))) := by
  intro objs
  induction objs with
  | nil =>
    intro acc
    constructor
    · rw [List.foldl_nil]
      constructor
      · intro h
        exact ⟨h, by intro o ho; cases ho⟩
      · rintro ⟨h, _⟩
        exact h
    · intro s h hres
      rw [List.foldl_nil] at hres
      left
      exact ⟨hres, by intro o ho; cases ho⟩
  | cons o rest ih =>
    intro acc
    rcases hio : o.intersect ray with _ | hit
    · -- the head surface misses the ray; the step leaves the accumulator
      have hs := sceneStep_of_miss ray acc o hio
      constructor
      · rw [List.foldl_cons, hs, (ih acc).1]
        constructor
        · rintro ⟨hacc, hrest⟩
          refine ⟨hacc, ?_⟩
          intro o' hm
          rcases List.mem_cons.mp hm with rfl | hm'
          · exact hio
          · exact hrest o' hm'
        · rintro ⟨hacc, hall⟩
          exact ⟨hacc, fun o' hm' => hall o' (List.mem_cons_of_mem o hm')⟩
      · intro s h hres
        rw [List.foldl_cons, hs] at hres
        rcases (ih acc).2 s h hres with ⟨hacc, hrest⟩ |
          ⟨pre, post, heq, hsi, haccLt, hpre, hpost⟩
        · left
          refine ⟨hacc, ?_⟩
          intro o' hm h' hi'
          rcases List.mem_cons.mp hm with rfl | hm'
          · rw [hio] at hi'
            cases hi'
          · exact hrest o' hm' h' hi'
        · right
          refine ⟨o :: pre, post, ?_, hsi, haccLt, ?_, hpost⟩
          · rw [List.cons_append, heq]
          · intro o' hm h' hi'
            rcases List.mem_cons.mp hm with rfl | hm'
            · rw [hio] at hi'
              cases hi'
            · exact hpre o' hm' h' hi'
    · -- the head surface hits the ray
      rcases hacc0 : acc with _ | pr
      · -- empty accumulator: the head hit becomes the new best
        have hs := sceneStep_of_hit_none ray o hit hio
        constructor
        · rw [List.foldl_cons, hs, (ih (some (o, hit))).1]
          constructor
          · rintro ⟨habs, _⟩
            cases habs
          · rintro ⟨_, hall⟩
            rw [hall o (List.mem_cons_self o rest)] at hio
            cases hio
        · intro s h hres
          rw [List.foldl_cons, hs] at hres
          rcases (ih (some (o, hit))).2 s h hres with ⟨hacc, hrest⟩ |
            ⟨pre, post, heq, hsi, haccLt, hpre, hpost⟩
          · right
            injection hacc with hacc'
            obtain ⟨rfl, rfl⟩ := Prod.mk.injEq .. ▸ Prod.ext_iff.mp hacc'.symm
            refine ⟨[], rest, rfl, hio, ?_, ?_, hrest⟩
            · intro p hp habs
              cases habs
            · intro o' hm
              cases hm
          · right
            have hlt : h.dist < hit.dist := haccLt o hit rfl
            refine ⟨o :: pre, post, ?_, hsi, ?_, ?_, hpost⟩
            · rw [List.cons_append, heq]
            · intro p hp habs
              cases habs
            · intro o' hm h' hi'
              rcases List.mem_cons.mp hm with rfl | hm'
              · rw [hio] at hi'
                injection hi' with hi''
                rw [← hi'']
                exact hlt
              · exact hpre o' hm' h' hi'
      · -- occupied accumulator: strict improvement test
        by_cases hlt : hit.dist < pr.2.dist
        · have hs := sceneStep_of_hit_lt ray o hit pr hio hlt
          constructor
          · rw [List.foldl_cons, hs, (ih (some (o, hit))).1]
            constructor
            · rintro ⟨habs, _⟩
              cases habs
            · rintro ⟨_, hall⟩
              rw [hall o (List.mem_cons_self o rest)] at hio
              cases hio
          · intro s h hres
            rw [List.foldl_cons, hs] at hres
            rcases (ih (some (o, hit))).2 s h hres with ⟨hacc, hrest⟩ |
              ⟨pre, post, heq, hsi, haccLt, hpre, hpost⟩
            · right
              injection hacc with hacc'
              obtain ⟨rfl, rfl⟩ := Prod.mk.injEq .. ▸ Prod.ext_iff.mp hacc'.symm
              refine ⟨[], rest, rfl, hio, ?_, ?_, hrest⟩
              · intro p hp hpeq
                injection hpeq with hpeq'
                have h2 : pr.2 = hp := by rw [hpeq']
                rw [← h2]
                exact hlt
              · intro o' hm
                cases hm
            · right
              have hlt2 : h.dist < hit.dist := haccLt o hit rfl
              refine ⟨o :: pre, post, ?_, hsi, ?_, ?_, hpost⟩
              · rw [List.cons_append, heq]
              · intro p hp hpeq
                injection hpeq with hpeq'
                have h2 : pr.2 = hp := by rw [hpeq']
                rw [← h2]
                exact lt_trans hlt2 hlt
              · intro o' hm h' hi'
                rcases List.mem_cons.mp hm with rfl | hm'
                · rw [hio] at hi'
                  injection hi' with hi''
                  rw [← hi'']
                  exact hlt2
                · exact hpre o' hm' h' hi'
        · have hs := sceneStep_of_hit_ge ray o hit pr hio hlt
          constructor
          · rw [List.foldl_cons, hs, (ih (some pr)).1]
            constructor
            · rintro ⟨habs, _⟩
              cases habs
            · rintro ⟨habs, _⟩
              cases habs
          · intro s h hres
            rw [List.foldl_cons, hs] at hres
            rcases (ih (some pr)).2 s h hres with ⟨hacc, hrest⟩ |
              ⟨pre, post, heq, hsi, haccLt, hpre, hpost⟩
            · left
              injection hacc with hacc'
              refine ⟨by rw [hacc'], ?_⟩
              intro o' hm h' hi'
              rcases List.mem_cons.mp hm with rfl | hm'
              · rw [hio] at hi'
                injection hi' with hi''
                have h2 : pr.2 = h := by rw [hacc']
                rw [← hi'', ← h2]
                exact hlt
              · exact hrest o' hm' h' hi'
            · right
              have hltacc : h.dist < pr.2.dist := haccLt pr.1 pr.2 rfl
              refine ⟨o :: pre, post, ?_, hsi, ?_, ?_, hpost⟩
              · rw [List.cons_append, heq]
              · intro p hp hpeq
                injection hpeq with hpeq'
                have h2 : pr.2 = hp := by rw [hpeq']
                rw [← h2]
                exact hltacc
              · intro o' hm h' hi'
                rcases List.mem_cons.mp hm with rfl | hm'
                · rw [hio] at hi'
                  injection hi' with hi''
                  rw [← hi'']
                  exact lt_of_lt_of_le hltacc (not_lt.mp hlt)
                · exact hpre o' hm' h' hi'

/-- C5: `Scene::intersect` tests every surface and returns the (surface, hit)
pair with the smallest `dist` among all hits, returning `none` exactly when no
surface intersects; on an exact distance tie the surface earliest in the
scene's surface list wins (every surface strictly earlier than the returned
one has a strictly larger hit distance). -/
theorem scene_intersect_nearest (scene : Scene) (ray : Ray) :
    (Scene.intersect scene ray = none ↔
      ∀ o ∈ scene.objects, o.intersect ray = none) ∧
    (∀ s h, Scene.intersect scene ray = some (s, h) →
      ∃ pre post, scene.objects = pre ++ s :: post ∧
        s.intersect ray = some h ∧
        (∀ o ∈ scene.objects, ∀ h', o.intersect ray = some h' →
          h.dist ≤ h'.dist) ∧
        (∀ o ∈ pre, ∀ h', o.intersect ray = some h' → h.dist < h'.dist)) := by
  have hspec := sceneFold_spec ray scene.objects none
  constructor
  · rw [Scene.intersect, hspec.1]
    constructor
    · rintro ⟨_, hall⟩
      exact hall
    · intro hall
      exact ⟨rfl, hall⟩
  · intro s h hres
    rcases hspec.2 s h hres with ⟨habs, _⟩ |
      ⟨pre, post, heq, hsi, _, hpre, hpost⟩
    · cases habs
    · refine ⟨pre, post, heq, hsi, ?_, hpre⟩
      intro o hm h' hi'
      rw [heq] at hm
      rcases List.mem_append.mp hm with hm' | hm'
      · exact (hpre o hm' h' hi').le
      · rcases List.mem_cons.mp hm' with rfl | hm''
        · rw [hsi] at hi'
          injection hi' with hi''
          rw [hi'']
        · exact not_lt.mp (hpost o hm'' h' hi')

/-- C4 (spec-modelled): the map-applying `Sphere::intersect` returns exactly
the map-free geometric intersection with its normal replaced by
`apply_normal_map` at the un-displaced hit position, its position perturbed by
`apply_displacement_map`, and `dist`, `u`, `v` untouched; with a normal map
present the normal becomes `normalize(normal + (val,val,val))` with
`val = max(0, (noise+1)/2)`, and with a displacement map present the position
becomes `pos + (val,val,val)` with `val = max(0, noise+1)`. -/
theorem sphere_maps_effect :
    (∀ (ops : Ops) (s : Sphere) (ray : Ray),
      Sphere.intersectWithMaps ops s ray =
        (Sphere.intersect ops s ray).map (fun h =>
          Intersection.mk (s.material.apply_displacement_map h.pos)
            (s.material.apply_normal_map ops h.normal h.pos)
            h.dist h.u h.v)) ∧
    (∀ (ops : Ops) (col : Vec3) (dc sc gl rf : ℚ) (tex : Option Texture)
      (nm : NormalMap) (dmo : Option DisplacementMap) (normal pos : Vec3),
      Material.apply_normal_map ops
          (Material.mk col dc sc gl rf tex (some nm) dmo) normal pos =
        normalize ops (normal +
          (let val := (nm.noiseGet pos + 1) / 2
           let val := if val < 0 then 0 else val
           (⟨val, val, val⟩ : Vec3)))) ∧
    (∀ (col : Vec3) (dc sc gl rf : ℚ) (tex : Option Texture)
      (nmo : Option NormalMap) (dm : DisplacementMap) (pos : Vec3),
      Material.apply_displacement_map
          (Material.mk col dc sc gl rf tex nmo (some dm)) pos =
        pos +
          (let val := dm.noiseGet pos + 1
           let val := if val < 0 then 0 else val
           (⟨val, val, val⟩ : Vec3))) := by
  refine ⟨?_, fun _ _ _ _ _ _ _ _ _ _ _ => rfl, fun _ _ _ _ _ _ _ _ _ => rfl⟩
  intro ops s ray
  unfold Sphere.intersectWithMaps Sphere.intersect
  split_ifs <;> rfl

/-! Evaluation lemmas for the concrete fixtures. -/

theorem wRay_eq : wRay = Ray.mk ⟨0, 0, -4⟩ ⟨0, 0, 1⟩ := by
  norm_num [wRay, Ray.new, RayTrace.normalize, RayTrace.norm, sqnorm, dot, wOps]

theorem wRayX_eq : wRayX = Ray.mk ⟨0, 0, 0⟩ ⟨1, 0, 0⟩ := by
  norm_num [wRayX, Ray.new, RayTrace.normalize, RayTrace.norm, sqnorm, dot, wOps]

theorem wSphere_hit : Sphere.intersect wOps wSphere wRay = some wHit := by
  rw [wRay_eq]
  norm_num [Sphere.intersect, sphereDisc, sphereB, sphereC, sphereD1, sphereD2,
    sphereHit, sqnorm, dot, RayTrace.normalize, RayTrace.norm, wOps, wSphere,
    wMat, wHit, Intersection.mk.injEq, Vec3.mk.injEq]

theorem wSphereB_hit : Sphere.intersect wOps wSphereB wRay = some wHitB := by
  rw [wRay_eq]
  norm_num [Sphere.intersect, sphereDisc, sphereB, sphereC, sphereD1, sphereD2,
    sphereHit, sqnorm, dot, RayTrace.normalize, RayTrace.norm, wOps, wSphereB,
    wMat, wHitB, Intersection.mk.injEq, Vec3.mk.injEq]

theorem wScene_hit : Scene.intersect wScene wRay = some (wSurf, wHit) := by
  show List.foldl (sceneStep wRay) none [wSurf] = some (wSurf, wHit)
  rw [List.foldl_cons, sceneStep_of_hit_none wRay wSurf wHit wSphere_hit,
    List.foldl_nil]

theorem wScene1_hit : Scene.intersect wScene1 wRay = some (wSurf, wHit) := by
  show List.foldl (sceneStep wRay) none [wSurf] = some (wSurf, wHit)
  rw [List.foldl_cons, sceneStep_of_hit_none wRay wSurf wHit wSphere_hit,
    List.foldl_nil]

theorem wScene5_hit : Scene.intersect wScene5 wRay = some (wSurf, wHit) := by
  show List.foldl (sceneStep wRay) none [wSurf, wSurfB] = some (wSurf, wHit)
  have hge : ¬ wHitB.dist < (wSurf, wHit).2.dist := by
    norm_num [wHitB, wHit]
  rw [List.foldl_cons, sceneStep_of_hit_none wRay wSurf wHit wSphere_hit,
    List.foldl_cons, sceneStep_of_hit_ge wRay wSurfB wHitB (wSurf, wHit)
      wSphereB_hit hge, List.foldl_nil]

theorem wPlane_hit : Plane.intersect wPlane wRay = some wHitP := by
  rw [wRay_eq]
  unfold Plane.intersect wPlane Plane.new
  norm_num [dot, cross, wMat, wHitP, Intersection.mk.injEq, Vec3.mk.injEq]

theorem wParDot : dot wRayX.dir wPlanePar.normal = 0 := by
  rw [wRayX_eq]
  norm_num [dot, wPlanePar, Plane.new]

theorem wDisc_eq : sphereDisc wSphere wRay = 4 := by
  rw [wRay_eq]
  norm_num [sphereDisc, sphereB, sphereC, sqnorm, dot, wSphere, wMat]

theorem wB_eq : sphereB wSphere wRay = -8 := by
  rw [wRay_eq]
  norm_num [sphereB, dot, wSphere, wMat]

theorem wSqrt_disc : wOps.sqrt (sphereDisc wSphere wRay) = 2 := by
  rw [wDisc_eq]
  norm_num [wOps]

theorem wD2_eq : sphereD2 wOps wSphere wRay = 3 := by
  unfold sphereD2
  rw [wSqrt_disc, wB_eq]
  norm_num

/-! Witnesses: each applies its claim's theorem at a concrete input. -/

theorem trace_shadow_visibility_witness :
    Scene.intersect wScene1 wRay = some (wSurf, wHit) ∧
    ((traceRay wOps wScene1 wRay 0 2 =
        ambientTerm wScene1 wSurf.material +
          vsum (wScene1.lights.map fun light =>
            if lightVisibleB wOps wScene1 wHit light then
              lightContrib wOps wSurf.material wRay wHit light
            else 0) +
          (if 2 ≤ 0 then 0
           else if 0 < wSurf.material.reflectivity then
             traceRay wOps wScene1 (reflectedRay wOps wRay wHit) 1 2 *
               wSurf.material.reflectivity
           else 0)) ∧
      (∀ light, lightVisibleB wOps wScene1 wHit light = true ↔
        Scene.intersect wScene1 (shadowRayFor wOps wHit light) = none ∨
        ∃ o sh,
          Scene.intersect wScene1 (shadowRayFor wOps wHit light) =
            some (o, sh) ∧
          lightDist wOps wHit light < sh.dist)) :=
  ⟨wScene1_hit,
    trace_shadow_visibility wOps wScene1 wRay 0 2 wSurf wHit wScene1_hit⟩

theorem sphere_intersect_root_selection_witness :
    (0 ≤ sphereDisc wSphere wRay ∧ 0 < sphereD2 wOps wSphere wRay) ∧
    (Sphere.intersect wOps wSphere wRay =
        some (sphereHit wOps wSphere wRay (sphereD2 wOps wSphere wRay)) ∧
      (sphereHit wOps wSphere wRay (sphereD2 wOps wSphere wRay)).dist =
        sphereD2 wOps wSphere wRay) ∧
    (wOps.sqrt (sphereDisc wSphere wRay) * wOps.sqrt (sphereDisc wSphere wRay) =
        sphereDisc wSphere wRay ∧
      sphereD2 wOps wSphere wRay * sphereD2 wOps wSphere wRay +
          sphereB wSphere wRay * sphereD2 wOps wSphere wRay +
          sphereC wSphere wRay = 0) := by
  have hdisc : 0 ≤ sphereDisc wSphere wRay := by
    rw [wDisc_eq]
    norm_num
  have hd2 : 0 < sphereD2 wOps wSphere wRay := by
    rw [wD2_eq]
    norm_num
  have hsq : wOps.sqrt (sphereDisc wSphere wRay) *
      wOps.sqrt (sphereDisc wSphere wRay) = sphereDisc wSphere wRay := by
    rw [wSqrt_disc, wDisc_eq]
    norm_num
  exact ⟨⟨hdisc, hd2⟩,
    (sphere_intersect_root_selection wOps wSphere wRay).2.1 hdisc hd2,
    ⟨hsq, ((sphere_intersect_root_selection wOps wSphere wRay).2.2.2.2 hsq).1⟩⟩

theorem trace_no_recursion_witness :
    3 ≤ 3 ∧ traceRay wOps wScene wRay 3 3 = localShade wOps wScene wRay :=
  ⟨le_refl 3, trace_no_recursion_at_depth_limit wOps wScene wRay 3 3 (le_refl 3)⟩

theorem scene_intersect_nearest_witness :
    Scene.intersect wScene5 wRay = some (wSurf, wHit) ∧
    ∃ pre post, wScene5.objects = pre ++ wSurf :: post ∧
      wSurf.intersect wRay = some wHit ∧
      (∀ o ∈ wScene5.objects, ∀ h', o.intersect wRay = some h' →
        wHit.dist ≤ h'.dist) ∧
      (∀ o ∈ pre, ∀ h', o.intersect wRay = some h' → wHit.dist < h'.dist) :=
  ⟨wScene5_hit, (scene_intersect_nearest wScene5 wRay).2 wSurf wHit wScene5_hit⟩

theorem trace_ambient_and_background_witness :
    (wScene.lights = [] ∧ Scene.intersect wScene wRay = some (wSurf, wHit) ∧
      wSurf.material.reflectivity = 0) ∧
    traceRay wOps wScene wRay 0 5 =
      componentMul wSurf.material.raw_color
        ((wScene.ambient_color / (255 : ℚ)) * wScene.ambient_coeff) :=
  ⟨⟨rfl, wScene_hit, rfl⟩,
    trace_ambient_and_background.1 wOps wScene wRay 0 5 wSurf wHit rfl
      wScene_hit rfl⟩

theorem intersection_dist_pos_witness :
    (Sphere.intersect wOps wSphere wRay = some wHit ∧ 0 < wHit.dist) ∧
    (Plane.intersect wPlane wRay = some wHitP ∧ 0 < wHitP.dist) ∧
    (dot wRayX.dir wPlanePar.normal = 0 ∧
      Plane.intersect wPlanePar wRayX = none) :=
  ⟨⟨wSphere_hit, (intersection_dist_pos wOps).1 wSphere wRay wHit wSphere_hit⟩,
   ⟨wPlane_hit, (intersection_dist_pos wOps).2.1 wPlane wRay wHitP wPlane_hit⟩,
   ⟨wParDot, (intersection_dist_pos wOps).2.2 wPlanePar wRayX wParDot⟩⟩

theorem checkerboard_periodic_blackness_witness :
    (0 : ℚ) < 1 ∧
    ((CheckerboardTexture.mk 1).color (1 / 4 + 1) (1 / 4) =
        (CheckerboardTexture.mk 1).color (1 / 4) (1 / 4) ∧
      (CheckerboardTexture.mk 1).color (1 / 4) (1 / 4 + 1) =
        (CheckerboardTexture.mk 1).color (1 / 4) (1 / 4) ∧
      ((CheckerboardTexture.mk 1).color (1 / 4) (1 / 4) = ⟨0, 0, 0⟩ ↔
        (0 < foldCoord 1 (1 / 4) ∧ foldCoord 1 (1 / 4) < 0) ∨
        (foldCoord 1 (1 / 4) < 0 ∧ 0 < foldCoord 1 (1 / 4)))) :=
  ⟨by norm_num,
    checkerboard_periodic_blackness (CheckerboardTexture.mk 1) (1 / 4) (1 / 4)
      (by norm_num)⟩

theorem image_color_wraps_witness :
    ((0 : ℚ) ≤ 1 / 4 ∧ wImg.width ≤ 2 ^ 32 ∧ wImg.height ≤ 2 ^ 32) ∧
    ImageTexture.color wImg (1 / 4) (1 / 4) =
      ImageTexture.colorSpec wImg (1 / 4) (1 / 4) :=
  ⟨⟨by norm_num, by norm_num [wImg], by norm_num [wImg]⟩,
    image_color_wraps_for_nonneg wImg (1 / 4) (1 / 4) (by norm_num)
      (by norm_num) (by norm_num [wImg]) (by norm_num [wImg])⟩

theorem plane_normal_passthrough_witness :
    (Plane.new ⟨0, 0, 5⟩ ⟨0, 0, 2⟩ wMat).normal = ⟨0, 0, 2⟩ ∧
    Plane.intersect wPlane wRay = some wHitP ∧
    wHitP.normal = wPlane.normal ∧
    0 < dot wRay.dir wPlane.normal :=
  ⟨plane_normal_passthrough.1 ⟨0, 0, 5⟩ ⟨0, 0, 2⟩ wMat, wPlane_hit,
    plane_normal_passthrough.2 wPlane wRay wHitP wPlane_hit,
    by rw [wRay_eq]; norm_num [dot, wPlane, Plane.new]⟩

end RayTrace
